import Mathlib

/-!
Verification of the core of the tamer event-driven runtime against its
natural-language specification.  Each definition is a shallow embedding of
the corresponding C++ entity; definitions whose C++ bodies are not part of
the available sources are marked `Modelled from the spec:` in their doc
comment and follow the specification text instead.
-/

namespace Tamer

/-! ## File-descriptor wrapper (`fd`, tamer/fd.hh)

`fd` holds a pointer `_p` to a refcounted `fdimp`, which stores the raw
descriptor value.  We model the pointer as `Option Int`: `none` is the null
pointer, `some v` a live `fdimp` whose `fd` field holds `v`.  Refcounting is
irrelevant to the validity observers and is not modelled. -/

/-- The Linux `EBADF` errno value, used by `fd.hh` as `-EBADF`. -/
def EBADF : Int := 9

/-- State of an `fd` wrapper object: the `_p` pointer with the stored
descriptor value. -/
structure FdW where
  p : Option Int
deriving DecidableEq, Repr

/-- `fd::fd()` — default constructor: `_p(0)`. -/
def fdDefault : FdW := ⟨none⟩

/-- `fd::fd(int value)` — `_p(value == -EBADF ? 0 : new fdimp(value))`. -/
def fdMk (value : Int) : FdW :=
  ⟨if value = -EBADF then none else some value⟩

/-- `fd::valid()` — `_p && _p->fd >= 0`. -/
def FdW.valid (x : FdW) : Bool :=
  match x.p with
  | none => false
  | some v => 0 ≤ v

/-- `fd::operator unspecified_bool_type()` — `_p && _p->fd >= 0 ? &fd::_p : 0`,
i.e. the boolean conversion is true exactly when the pointer test succeeds. -/
def FdW.toBool (x : FdW) : Bool :=
  match x.p with
  | none => false
  | some v => 0 ≤ v

/-- `fd::error()` — `if (_p) return (_p->fd >= 0 ? 0 : _p->fd); else return -EBADF;`. -/
def FdW.error (x : FdW) : Int :=
  match x.p with
  | none => -EBADF
  | some v => if 0 ≤ v then 0 else v

/-! ## Driver fd table (`driver::at_fd`, part_001 lines 114-154)

The fd table is an array indexed by `fd*2 + write` of `event<>` values,
with parallel `fd_set` bitmasks `_readfds`/`_writefds` and the `_nfds`
watermark.  An `event<>` is observed by `at_fd` only through its boolean
conversion (armed or empty), so we model it by that bit. -/

/-- An `event<>` as observed by the driver: its boolean conversion, true
iff the underlying event is still armed (non-empty). -/
structure Event0 where
  armed : Bool
deriving DecidableEq, Repr

/-- Driver state touched by `at_fd`: capacity, table, the two select sets
and the `_nfds` watermark.  The select sets are modelled as membership
functions (`FD_ISSET`). -/
structure FdDriverSt where
  fdcap : Nat
  fdTable : Nat → Event0
  readfds : Nat → Bool
  writefds : Nat → Bool
  nfds : Nat

/-- The capacity loop of `expand_fds`:
`int ncap = (_fdcap ? _fdcap * 2 : 16); while (fd*2 >= ncap) ncap *= 2;`.
The `0 < c` test guards the (unreachable in the driver, where capacities
start at 16) nonterminating `c = 0` case. -/
def growCap (fd : Nat) (c : Nat) : Nat :=
  if h : fd * 2 ≥ c ∧ 0 < c then growCap fd (c * 2) else c
termination_by fd * 2 + 1 - c
decreasing_by omega

/-- `driver::expand_fds(int fd)`: grows `_fdcap`, copies the old table and
default-constructs (empty) events in the new slots. -/
def expandFds (d : FdDriverSt) (fd : Nat) : FdDriverSt :=
  let ncap := growCap fd (if d.fdcap ≠ 0 then d.fdcap * 2 else 16)
  { d with
    fdcap := ncap
    fdTable := fun i => if i < d.fdcap then d.fdTable i else ⟨false⟩ }

/-- `driver::at_fd(int fd, bool write, const event<> &trigger)`
(part_001 lines 141-154). -/
def at_fd (d : FdDriverSt) (fd : Nat) (write : Bool) (trigger : Event0) :
    FdDriverSt :=
  let d1 := if fd * 2 ≥ d.fdcap then expandFds d fd else d
  let idx := fd * 2 + (if write then 1 else 0)
  let d2 := { d1 with fdTable := fun i => if i = idx then trigger else d1.fdTable i }
  if trigger.armed then
    if write then
      { d2 with
        writefds := fun i => if i = fd then true else d2.writefds i
        nfds := if fd ≥ d2.nfds then fd + 1 else d2.nfds }
    else
      { d2 with
        readfds := fun i => if i = fd then true else d2.readfds i
        nfds := if fd ≥ d2.nfds then fd + 1 else d2.nfds }
  else
    if write then
      { d2 with writefds := fun i => if i = fd then false else d2.writefds i }
    else
      { d2 with readfds := fun i => if i = fd then false else d2.readfds i }

/-! ## Wait-budget computation (`driver::once`, part_001 lines 200-217) -/

/-- A `struct timeval`. -/
structure Timeval where
  sec : Int
  usec : Int
deriving DecidableEq, Repr

/-- Well-formed timeval: microseconds normalised into `[0, 1000000)`. -/
def Timeval.wf (t : Timeval) : Prop := 0 ≤ t.usec ∧ t.usec < 1000000

/-- `timercmp(&a, &b, >)` — lexicographic comparison:
`(a.tv_sec == b.tv_sec) ? (a.tv_usec > b.tv_usec) : (a.tv_sec > b.tv_sec)`. -/
def timercmpGT (a b : Timeval) : Bool :=
  if a.sec = b.sec then b.usec < a.usec else b.sec < a.sec

/-- `timersub(&a, &b, &result)` — componentwise subtraction with borrow:
if the microsecond difference is negative, borrow one second. -/
def timersub (a b : Timeval) : Timeval :=
  let s := a.sec - b.sec
  let u := a.usec - b.usec
  if u < 0 then ⟨s - 1, u + 1000000⟩ else ⟨s, u⟩

/-- The zero timeval produced by `timerclear`. -/
def tvZero : Timeval := ⟨0, 0⟩

/-- A timeval clipped at zero: negative durations become zero.  (The spec
phrases the third wait-budget case as "`root.expiry − now` clipped at
zero".) -/
def tvClip0 (t : Timeval) : Timeval :=
  if t.sec < 0 ∨ (t.sec = 0 ∧ t.usec < 0) then tvZero else t

/-- The timeout computation of `driver::once` (part_001 lines 200-217),
as a function of the driver state it reads: the asap count `_nasap`, the
timer heap viewed as the list of expiries in heap-array order (so the root
is the head), the cached `now`, and the `sig_any_active` flag.  Returns
`none` for a null timeout pointer (block without limit), otherwise the
`timeval` passed to `select`. -/
def computeTimeout (nasap : Nat) (timers : List Timeval) (now : Timeval)
    (sigAnyActive : Bool) : Option Timeval :=
  match timers with
  | [] =>
    if 0 < nasap ∨ sigAnyActive then some tvZero
    else none
  | root :: _ =>
    if 0 < nasap ∨ ¬ timercmpGT root now ∨ sigAnyActive then some tvZero
    else some (timersub root now)

/-! ## Typed events (`_event_base`, part_002 lines 33-68)

`_event_base<T1..T4>::trigger` is in the sources; the `_event_superbase`
state it drives (`complete`, declared in the missing `tame_rendezvous.hh`)
is modelled from the spec. -/

/-- Modelled from the spec: the `_event_superbase` state observed by
`trigger` — the repository's `tame_rendezvous.hh`, which defines
`_event_superbase::complete`, is not among the sources.  Per the spec, an
event is *armed* while its owner-rendezvous pointer is non-null and *empty*
once completed ("The *empty* predicate is exactly 'owner pointer is
null'"); `hookFires` counts how often the at-trigger hook has been fired. -/
structure SuperBase where
  armed : Bool
  hookFires : Nat
deriving DecidableEq, Repr

/-- Modelled from the spec: `_event_superbase::complete(bool values)`
(missing `tame_rendezvous.hh`).  Per spec §4.1 simple-trigger: "if already
empty, no-op; else unlink from owner's waiting list, clear owner pointer,
mark the owner rendezvous ready with this event, then fire at-trigger hook".
Returns whether the armed-to-empty transition happened. -/
def SuperBase.complete (e : SuperBase) (_values : Bool) : Bool × SuperBase :=
  if e.armed then (true, { armed := false, hookFires := e.hookFires + 1 })
  else (false, e)

/-- A four-slot typed event `_event_base<T1,T2,T3,T4>`: the superbase state
plus the four slot pointers `_t1.._t4`.  A slot is `none` when its pointer
is null; `some v` models a non-null pointer whose referent holds `v`.  All
slot types are instantiated at one type `T` (the template is uniform in
them). -/
structure EventBase (T : Type) where
  base : SuperBase
  t1 : Option T
  t2 : Option T
  t3 : Option T
  t4 : Option T
deriving DecidableEq, Repr

/-- `_event_base::trigger(t1, t2, t3, t4)` (part_002 lines 52-59):
`if (_event_superbase::complete(true)) { if (_t1) *_t1 = t1; ... }`. -/
def EventBase.trigger {T : Type} (e : EventBase T) (v1 v2 v3 v4 : T) :
    EventBase T :=
  let r := e.base.complete true
  if r.1 then
    { base := r.2
      t1 := e.t1.map fun _ => v1
      t2 := e.t2.map fun _ => v2
      t3 := e.t3.map fun _ => v3
      t4 := e.t4.map fun _ => v4 }
  else
    { e with base := r.2 }

/-! ## Explicit rendezvous ready queue (`explicit_rendezvous`, xbase.hh 196-229)

The ready queue is a singly linked list of completed `simple_event`s
threaded through `_r_next`, with head `ready_` and tail pointer
`ready_ptail_`; we model it as the list of those events.  Only the
rendezvous-assigned identifier of each event matters here. -/

/-- The state of an `explicit_rendezvous` ready queue: completed events in
list order (`ready_` is the head, `ready_ptail_` points at the tail). -/
structure ExplicitR where
  ready : List Nat
deriving DecidableEq, Repr

/-- Modelled from the spec: the completion step of `simple_trigger` for an
explicit rendezvous (defined in the missing `xbase.cc`): "for explicit
rendezvous: append this event's identifier to the ready queue" — i.e. link
the event at `*ready_ptail_`, the tail of the ready list. -/
def ExplicitR.pushReady (r : ExplicitR) (rid : Nat) : ExplicitR :=
  ⟨r.ready ++ [rid]⟩

/-- `explicit_rendezvous::pop_ready()` (xbase.hh lines 212-219): unlink the
head ready event and return its `rid`.  The source dereferences `ready_`
unconditionally (callers have checked non-emptiness); the empty case is the
`none` branch. -/
def ExplicitR.pop_ready (r : ExplicitR) : Option (Nat × ExplicitR) :=
  match r.ready with
  | [] => none
  | e :: rest => some (e, ⟨rest⟩)

/-- Iterated `pop_ready`, collecting the returned identifiers; `fuel`
bounds the number of pops (each pop shortens the ready list, so
`r.ready.length` is always enough). -/
def popReadyLoop : Nat → ExplicitR → List Nat
  | 0, _ => []
  | fuel + 1, r =>
    match r.pop_ready with
    | none => []
    | some (x, r2) => x :: popReadyLoop fuel r2

/-- Repeated `pop_ready` until the ready queue is empty, collecting the
returned identifiers in order (the sequence of values successive `join`
calls report). -/
def ExplicitR.popAllReady (r : ExplicitR) : List Nat :=
  popReadyLoop r.ready.length r

/-! ## Blocking a closure (`abstract_rendezvous::block` / `unblock`,
xbase.hh lines 330-353)

World state: one abstract rendezvous (with its explicit ready queue, so
"currently has ready events" is expressible), the block position stored in
the closure, and the driver's global unblocked FIFO as the list of enqueued
rendezvous identities. -/

/-- The world seen by `block`/`unblock`: the rendezvous fields
`_blocked_closure` (as an optional closure id) and `unblocked_next_`
(abstracted to whether it equals `unblocked_sentinel()`), its ready queue,
the identity `rid` under which it would appear in the global unblocked
FIFO, the FIFO itself, and the closure's `tamer_block_position_` field. -/
structure BlockWorld where
  blockedClosure : Option Nat
  nextSentinel : Bool
  ready : List Nat
  rid : Nat
  queue : List Nat
  cpos : Nat
deriving DecidableEq, Repr

/-- `abstract_rendezvous::block(tamer_closure &c, unsigned position, ...)`
(xbase.hh lines 330-337): assert no closure is parked, record `c`, set
`unblocked_next_` to the sentinel, store the position into the closure.
The tripped assertion is the `none` result. -/
def BlockWorld.block (w : BlockWorld) (c : Nat) (position : Nat) :
    Option BlockWorld :=
  if w.blockedClosure ≠ none then none
  else some { w with
    blockedClosure := some c
    nextSentinel := true
    cpos := position }

/-- `abstract_rendezvous::unblock()` (xbase.hh lines 347-353): if a closure
is parked and `unblocked_next_` is the sentinel, append the rendezvous at
`*unblocked_ptail` (the FIFO tail) and clear the sentinel. -/
def BlockWorld.unblock (w : BlockWorld) : BlockWorld :=
  if w.blockedClosure.isSome ∧ w.nextSentinel then
    { w with queue := w.queue ++ [w.rid], nextSentinel := false }
  else w

/-! ## The unblocked-rendezvous FIFO as a state machine
(`abstract_rendezvous`, xbase.hh lines 153-194 and 330-353)

Rendezvous are named by `Nat`.  The global state keeps the FIFO contents
(the linked list threaded through `unblocked_next_`, abstracted to the list
of members in order) together with each rendezvous's `_blocked_closure`
(abstracted to whether it is non-null) and whether its `unblocked_next_`
holds `unblocked_sentinel()`. -/

/-- Global state of the unblocked FIFO and the per-rendezvous fields read
by `block`, `unblock` and `pop_unblocked`. -/
structure QState where
  queue : List Nat
  blocked : Nat → Bool
  sentinel : Nat → Bool

/-- Effect of `abstract_rendezvous::block` on rendezvous `r` (xbase.hh
lines 330-337): record the closure and set `unblocked_next_` to the
sentinel.  The `assert(!_blocked_closure)` precondition is carried by the
step relation. -/
def QState.blockOp (s : QState) (r : Nat) : QState :=
  { queue := s.queue
    blocked := fun x => if x = r then true else s.blocked x
    sentinel := fun x => if x = r then true else s.sentinel x }

/-- Effect of `abstract_rendezvous::unblock` on rendezvous `r` (xbase.hh
lines 347-353): only when a closure is parked and `unblocked_next_` is the
sentinel, append `r` at the tail and overwrite `unblocked_next_` with a
real link (no longer the sentinel); otherwise do nothing. -/
def QState.unblockOp (s : QState) (r : Nat) : QState :=
  if s.blocked r ∧ s.sentinel r then
    { queue := s.queue ++ [r]
      blocked := s.blocked
      sentinel := fun x => if x = r then false else s.sentinel x }
  else s

/-- Effect of `abstract_rendezvous::pop_unblocked` (xbase.hh lines
163-170): remove the head of the FIFO (if any); the popped rendezvous's own
fields are left untouched. -/
def QState.popOp (s : QState) : QState :=
  { s with queue := s.queue.tail }

/-- One step of the unblocked-FIFO machine: a `block` call (with its
assertion as precondition), an `unblock` call, or a `pop_unblocked` call. -/
inductive QStep : QState → QState → Prop
  | block (s : QState) (r : Nat) (h : s.blocked r = false) :
      QStep s (s.blockOp r)
  | unblock (s : QState) (r : Nat) : QStep s (s.unblockOp r)
  | pop (s : QState) : QStep s s.popOp

/-- A legal initial state: empty FIFO and no closure parked anywhere (the
`unblocked_next_` field is uninitialised at construction, so the sentinel
assignment is arbitrary). -/
def QInit (s : QState) : Prop :=
  s.queue = [] ∧ ∀ r, s.blocked r = false

/-- States reachable from a legal initial state by `block`/`unblock`/`pop`
interleavings. -/
def QReachable (s0 s : QState) : Prop :=
  Relation.ReflTransGen QStep s0 s

/-- The inductive invariant: the FIFO has no duplicates, and every member
has a parked closure and a non-sentinel `unblocked_next_`. -/
def QInv (s : QState) : Prop :=
  s.queue.Nodup ∧
    (∀ r ∈ s.queue, s.sentinel r = false) ∧
    (∀ r ∈ s.queue, s.blocked r = true)

/-! ## One driver turn (`driver::once`, part_001 lines 188-297)

The observable behaviour of one turn is the sequence of trigger and
closure-resumption actions it performs.  Trigger *effects* — which
rendezvous a given `event<>::trigger()` call marks unblocked — depend on
`_event_superbase::complete` (missing `tame_rendezvous.hh`) and are
modelled from the spec as oracle functions carried in the state: "mark the
owner rendezvous ready with this event ... schedule the rendezvous as
unblocked". -/

/-- One observable action of a turn. -/
inductive Ev
  | sig (n : Nat)
  | asap (n : Nat)
  | fdev (fd : Nat) (write : Bool)
  | timer (n : Nat)
  | run (r : Nat)
deriving DecidableEq, Repr

/-- The phase in which an action can occur, in the order the phases appear
in `driver::once`'s body. -/
def Ev.rank : Ev → Nat
  | .sig _ => 0
  | .asap _ => 1
  | .fdev _ _ => 2
  | .timer _ => 3
  | .run _ => 4

/-- Whether an action is a parked-task resumption (`r->_run()`). -/
def Ev.isRun : Ev → Bool
  | .run _ => true
  | _ => false

/-- A scheduled timer (`ttimer`): its expiry, whether its completion
`event<>` is still armed (`!t->trigger` pops cancelled timers), and a name
for its completion event. -/
structure Timer where
  expiry : Timeval
  armed : Bool
  id : Nat
deriving DecidableEq, Repr

/-- The driver state consumed by one `once` turn, with the timer min-heap
abstracted to its pop-order list (root first) and the `select` outcome
(return value and ready descriptors) supplied as inputs.  `errnoVal` is the
`errno` left by `select`.  The `...Eff` oracles give each trigger's
unblocking effect (modelled from the spec, see above); `runEff` gives the
rendezvous a resumed closure enqueues while it runs. -/
structure OnceState where
  sigAnyActive : Bool
  sigActive : List Nat
  unblocked : List Nat
  asap : List Nat
  timers : List Timer
  now : Timeval
  fdsReady : List (Nat × Bool)
  selectResult : Int
  errnoVal : Int
  sigEff : Nat → List Nat
  asapEff : Nat → List Nat
  fdEff : Nat → Bool → List Nat
  timerEff : Nat → List Nat
  runEff : Nat → List Nat

/-- The unblocked-rendezvous drain loop
(`while (_rendezvous_base *r = _rendezvous_base::unblocked) r->_run();`),
with explicit fuel since a running closure may enqueue further rendezvous.
Returns the resumption trace and the leftover queue (empty whenever the
fuel suffices). -/
def drainUnblocked (runEff : Nat → List Nat) : Nat → List Nat → List Ev × List Nat
  | 0, q => ([], q)
  | _ + 1, [] => ([], [])
  | fuel + 1, r :: q =>
    let p := drainUnblocked runEff fuel (q ++ runEff r)
    (Ev.run r :: p.1, p.2)

/-- The cancelled-timer cleanup at the top of `once` (part_001 lines
190-198): pop the root while its completion event is empty. -/
def timerCleanup : List Timer → List Timer
  | [] => []
  | t :: rest => if !t.armed then timerCleanup rest else t :: rest

/-- The timer-expiry loop (part_001 lines 285-292): pop the root while its
expiry is not after `now`.  Returns the popped timers in pop order and the
remaining heap. -/
def popDue (now : Timeval) : List Timer → List Timer × List Timer
  | [] => ([], [])
  | t :: rest =>
    if ¬ timercmpGT t.expiry now then
      let p := popDue now rest
      (t :: p.1, p.2)
    else ([], t :: rest)

/-- The asap drain order (part_001 lines 262-267):
`while (_nasap > 0) { --_nasap; _asap[_nasap].trigger(); ... }` — the loop
triggers `_asap[_nasap-1]` down to `_asap[0]`, so every entry is triggered
before all entries that were added earlier: the head of the array comes
last. -/
def asapTriggerOrder : List Nat → List Nat
  | [] => []
  | x :: xs => asapTriggerOrder xs ++ [x]

/-- One turn of the driver (`driver::once`, part_001 lines 188-297), from
the timer cleanup onward, with the `select` outcome given by
`selectResult`/`fdsReady`/`errnoVal`.  Produces the action trace and the
state left for the next turn.  Phases in source order: signal dispatch
(with its own unblocked drain), asap drain, fd drain (skipped when
`select` returned a negative value), timer expiry, final unblocked
drain. -/
def once (fuel : Nat) (s : OnceState) : List Ev × OnceState :=
  let ts0 := timerCleanup s.timers
  let sigPart :=
    if s.sigAnyActive then
      let q0 := s.unblocked ++ s.sigActive.flatMap s.sigEff
      let d := drainUnblocked s.runEff fuel q0
      (s.sigActive.map Ev.sig ++ d.1, d.2)
    else (([] : List Ev), s.unblocked)
  let aOrder := asapTriggerOrder s.asap
  let q2 := sigPart.2 ++ aOrder.flatMap s.asapEff
  let fdPart :=
    if 0 ≤ s.selectResult then
      (s.fdsReady.map fun p => Ev.fdev p.1 p.2,
       q2 ++ s.fdsReady.flatMap fun p => s.fdEff p.1 p.2)
    else (([] : List Ev), q2)
  let tp := popDue s.now ts0
  let q4 := fdPart.2 ++ tp.1.flatMap fun t => s.timerEff t.id
  let fin := drainUnblocked s.runEff fuel q4
  (sigPart.1 ++ aOrder.map Ev.asap ++ fdPart.1
     ++ tp.1.map (fun t => Ev.timer t.id) ++ fin.1,
   { s with
     sigAnyActive := false
     sigActive := if s.sigAnyActive then [] else s.sigActive
     unblocked := fin.2
     asap := []
     timers := tp.2
     fdsReady := [] })

/-- Modelled from the spec: `driver::at_asap` (declared in the missing
`tame_driver.hh`): the asap queue is "a bounded-capacity grow-by-doubling
array of `Event<>` to trigger on the next turn" — a new entry is stored at
index `_nasap`, i.e. after all existing entries. -/
def at_asap (s : OnceState) (e : Nat) : OnceState :=
  { s with asap := s.asap ++ [e] }

/-- The select set chosen by `at_fd`:
`fd_set *fset = (write ? &_writefds : &_readfds);`. -/
def selSet (d : FdDriverSt) (write : Bool) : Nat → Bool :=
  if write then d.writefds else d.readfds

/-- The Linux `EINTR` errno value. -/
def EINTR : Int := 4

/-! ### Concrete states used as witnesses and counterexamples -/

/-- A turn with a pending signal (number 3), a rendezvous (7) already in
the unblocked FIFO, and one asap event (0); no trigger has any unblocking
effect. -/
def cx2 : OnceState :=
  { sigAnyActive := true, sigActive := [3], unblocked := [7], asap := [0],
    timers := [], now := ⟨0, 0⟩, fdsReady := [], selectResult := 1,
    errnoVal := 0, sigEff := fun _ => [], asapEff := fun _ => [],
    fdEff := fun _ _ => [], timerEff := fun _ => [], runEff := fun _ => [] }

/-- A turn whose readiness poll failed (`select` returned -1 with
`errno = EBADF`) while a timer (event 5) is due and a descriptor looked
ready. -/
def cx5 : OnceState :=
  { sigAnyActive := false, sigActive := [], unblocked := [], asap := [],
    timers := [⟨⟨0, 0⟩, true, 5⟩], now := ⟨1, 0⟩, fdsReady := [(2, false)],
    selectResult := -1, errnoVal := 9, sigEff := fun _ => [],
    asapEff := fun _ => [], fdEff := fun _ _ => [], timerEff := fun _ => [],
    runEff := fun _ => [] }

/-- A turn with no pending signal: one asap event, one ready descriptor,
one due timer, one unblocked rendezvous. -/
def cw2 : OnceState :=
  { sigAnyActive := false, sigActive := [], unblocked := [9], asap := [1],
    timers := [⟨⟨0, 0⟩, true, 5⟩], now := ⟨1, 0⟩, fdsReady := [(2, true)],
    selectResult := 0, errnoVal := 0, sigEff := fun _ => [],
    asapEff := fun _ => [], fdEff := fun _ _ => [], timerEff := fun _ => [],
    runEff := fun _ => [] }

/-- A quiet turn with two asap events already queued. -/
def cw7 : OnceState :=
  { sigAnyActive := false, sigActive := [], unblocked := [], asap := [0, 1],
    timers := [], now := ⟨0, 0⟩, fdsReady := [], selectResult := 0,
    errnoVal := 0, sigEff := fun _ => [], asapEff := fun _ => [],
    fdEff := fun _ _ => [], timerEff := fun _ => [], runEff := fun _ => [] }

/-- A rendezvous with one ready event (identifier 5), no parked closure,
and an empty unblocked FIFO. -/
def bw0 : BlockWorld :=
  { blockedClosure := none, nextSentinel := false, ready := [5], rid := 1,
    queue := [], cpos := 0 }

/-- An initial unblocked-FIFO state: empty queue, no closure parked. -/
def qs0 : QState := ⟨[], fun _ => false, fun _ => true⟩

/-- `qs0` after `block` on rendezvous 0. -/
def qs1 : QState := qs0.blockOp 0

/-- `qs1` after `unblock` on rendezvous 0 (enqueues it). -/
def qs2 : QState := qs1.unblockOp 0

/-- `qs2` after a second `unblock` on rendezvous 0 (a duplicate attempt,
which the sentinel test turns into a no-op). -/
def qs3 : QState := qs2.unblockOp 0

/-- A driver fd-table state with capacity 16 and nothing armed. -/
def wd0 : FdDriverSt :=
  { fdcap := 16, fdTable := fun _ => ⟨false⟩, readfds := fun _ => false,
    writefds := fun _ => false, nfds := 0 }

/-- A typed event with three non-null slots (holding 9) and a null second
slot, still armed, hook never fired. -/
def ev1 : EventBase Nat := ⟨⟨true, 0⟩, some 9, none, some 9, some 9⟩

/-! ## Helper lemmas and claim theorems -/

theorem QInv_init {s : QState} (h : QInit s) : QInv s := by
  rcases h with ⟨hq, _⟩
  refine ⟨?_, ?_, ?_⟩ <;> simp [hq]

theorem QInv_step {s t : QState} (hs : QInv s) (hst : QStep s t) : QInv t := by
  rcases hs with ⟨hnd, hsent, hblk⟩
  cases hst with
  | block r h =>
    have hr : r ∉ s.queue := fun hmem => by
      have := hblk r hmem; rw [h] at this; exact Bool.false_ne_true this
    refine ⟨hnd, ?_, ?_⟩
    · intro x hx
      have hxr : x ≠ r := fun he => hr (he ▸ hx)
      simp [QState.blockOp, hxr, hsent x hx]
    · intro x hx
      by_cases hxr : x = r <;> simp [QState.blockOp, hxr, hblk x hx]
  | unblock r =>
    unfold QState.unblockOp
    by_cases hc : s.blocked r ∧ s.sentinel r
    · have hr : r ∉ s.queue := fun hmem => by
        have := hsent r hmem; rw [this] at hc; exact Bool.false_ne_true hc.2
      simp only [hc, if_true]
      refine ⟨?_, ?_, ?_⟩
      · simpa [List.nodup_append] using ⟨hnd, fun hx => hr hx⟩
      · intro x hx
        rcases List.mem_append.mp hx with hx | hx
        · have hxr : x ≠ r := fun he => hr (he ▸ hx)
          simp [hxr, hsent x hx]
        · simp at hx
          simp [hx]
      · intro x hx
        rcases List.mem_append.mp hx with hx | hx
        · exact hblk x hx
        · simp at hx; subst hx; exact hc.1
    · simp only [hc, if_false]
      exact ⟨hnd, hsent, hblk⟩
  | pop =>
    refine ⟨hnd.tail, ?_, ?_⟩
    · intro x hx; exact hsent x (List.mem_of_mem_tail hx)
    · intro x hx; exact hblk x (List.mem_of_mem_tail hx)

theorem QInv_reachable {s0 s : QState} (h0 : QInit s0)
    (h : QReachable s0 s) : QInv s := by
  induction h with
  | refl => exact QInv_init h0
  | tail _ hstep ih => exact QInv_step ih hstep

/-- C1: for a typed event that is still armed, the first `trigger(v)`
writes each `v` into its corresponding non-null slot, and a second
`trigger(w)` is a silent no-op: the state is entirely unchanged — the
slots still hold the first values, the event stays empty, and the
at-trigger hook is not re-fired (it fires exactly once, at the first
trigger). -/
theorem claim_C1 {T : Type} (e : EventBase T) (v1 v2 v3 v4 w1 w2 w3 w4 : T)
    (h : e.base.armed = true) :
    (e.trigger v1 v2 v3 v4).trigger w1 w2 w3 w4 = e.trigger v1 v2 v3 v4
    ∧ (e.trigger v1 v2 v3 v4).t1 = e.t1.map (fun _ => v1)
    ∧ (e.trigger v1 v2 v3 v4).t2 = e.t2.map (fun _ => v2)
    ∧ (e.trigger v1 v2 v3 v4).t3 = e.t3.map (fun _ => v3)
    ∧ (e.trigger v1 v2 v3 v4).t4 = e.t4.map (fun _ => v4)
    ∧ (e.trigger v1 v2 v3 v4).base.armed = false
    ∧ (e.trigger v1 v2 v3 v4).base.hookFires = e.base.hookFires + 1 := by
  simp [EventBase.trigger, SuperBase.complete, h]

/-- C1 witness: the theorem at the concrete armed event `ev1`. -/
theorem claim_C1_witness :
    ev1.base.armed = true
    ∧ ((ev1.trigger 1 2 3 4).trigger 5 6 7 8 = ev1.trigger 1 2 3 4
       ∧ (ev1.trigger 1 2 3 4).t1 = ev1.t1.map (fun _ => 1)
       ∧ (ev1.trigger 1 2 3 4).t2 = ev1.t2.map (fun _ => 2)
       ∧ (ev1.trigger 1 2 3 4).t3 = ev1.t3.map (fun _ => 3)
       ∧ (ev1.trigger 1 2 3 4).t4 = ev1.t4.map (fun _ => 4)
       ∧ (ev1.trigger 1 2 3 4).base.armed = false
       ∧ (ev1.trigger 1 2 3 4).base.hookFires = ev1.base.hookFires + 1) :=
  ⟨rfl, claim_C1 ev1 1 2 3 4 5 6 7 8 rfl⟩

theorem popReadyLoop_self (l : List Nat) : popReadyLoop l.length ⟨l⟩ = l := by
  induction l with
  | nil => rfl
  | cons a m ih => simp [popReadyLoop, ExplicitR.pop_ready, ih]

theorem popAllReady_eq (r : ExplicitR) : r.popAllReady = r.ready := by
  obtain ⟨l⟩ := r
  exact popReadyLoop_self l

/-- C3: completing two events of one explicit rendezvous in the order
`id1` then `id2` appends their identifiers to the ready queue in that
order; successive `pop_ready` calls then return `id1` before `id2` (they
return the whole queue front-to-back, never reordered). -/
theorem claim_C3 (r : ExplicitR) (id1 id2 : Nat) :
    ((r.pushReady id1).pushReady id2).ready = r.ready ++ [id1, id2]
    ∧ ((r.pushReady id1).pushReady id2).popAllReady = r.ready ++ [id1, id2]
    ∧ r.popAllReady = r.ready := by
  refine ⟨?_, ?_, popAllReady_eq r⟩
  · simp [ExplicitR.pushReady]
  · rw [popAllReady_eq]
    simp [ExplicitR.pushReady]

/-- C4 counterexample: the claim says that `block`, called on a rendezvous
that currently has ready events, links it onto the tail of the unblocked
FIFO.  In fact `block` never touches the FIFO: on `bw0`, which has a ready
event and no parked closure, `block` succeeds but leaves the FIFO empty
instead of appending the rendezvous. -/
theorem claim_C4_counterexample :
    bw0.ready ≠ [] ∧ bw0.blockedClosure = none
    ∧ BlockWorld.block bw0 7 2
        = some { blockedClosure := some 7, nextSentinel := true, ready := [5],
                 rid := 1, queue := [], cpos := 2 }
    ∧ (BlockWorld.block bw0 7 2).map BlockWorld.queue
        ≠ some (bw0.queue ++ [bw0.rid]) := by
  refine ⟨by decide, rfl, by decide, by decide⟩

/-- C4 (amended): for a rendezvous with no task parked, `block(c, P)`
records `c` as the parked closure, stores `P` as the closure's resumption
position, and always sets the rendezvous's next-pointer to the
not-in-queue sentinel, leaving the unblocked FIFO untouched whether or not
ready events exist; the rendezvous is enqueued (at the FIFO tail) only by
a subsequent `unblock()`.  Calling `block` while a task is already parked
trips the assertion. -/
theorem claim_C4 (w : BlockWorld) (c p : Nat) :
    (w.blockedClosure = none →
      BlockWorld.block w c p
          = some { w with blockedClosure := some c, nextSentinel := true,
                          cpos := p }
      ∧ (BlockWorld.block w c p).map BlockWorld.queue = some w.queue
      ∧ ((BlockWorld.block w c p).map BlockWorld.unblock).map BlockWorld.queue
          = some (w.queue ++ [w.rid]))
    ∧ (w.blockedClosure ≠ none → BlockWorld.block w c p = none) := by
  constructor
  · intro h
    simp [BlockWorld.block, BlockWorld.unblock, h]
  · intro h
    simp [BlockWorld.block, h]

/-- C4 witness: the amended theorem at `bw0`. -/
theorem claim_C4_witness :
    bw0.blockedClosure = none
    ∧ (BlockWorld.block bw0 7 2).map BlockWorld.queue = some bw0.queue :=
  ⟨rfl, ((claim_C4 bw0 7 2).1 rfl).2.1⟩

theorem timersub_eq_clip {a b : Timeval} (ha : a.wf) (hb : b.wf)
    (h : timercmpGT a b = true) : tvClip0 (timersub a b) = timersub a b := by
  rcases ha with ⟨ha1, ha2⟩
  rcases hb with ⟨hb1, hb2⟩
  simp only [timercmpGT] at h
  simp only [timersub, tvClip0, tvZero]
  split_ifs at h ⊢ <;> simp_all <;> omega

/-- C6: the wait budget passed to the readiness poll is zero whenever the
asap queue is non-empty, the timer root is due, or a signal is pending;
it is absent (block without limit) when there are no timers and none of
those hold; otherwise it is exactly `root.expiry − now` clipped at zero
(the clip is vacuous, the root not being due). -/
theorem claim_C6 (nasap : Nat) (timers : List Timeval) (now : Timeval)
    (sig : Bool) (hnow : now.wf) (ht : ∀ t ∈ timers, t.wf) :
    ((0 < nasap
        ∨ (∃ root rest, timers = root :: rest ∧ timercmpGT root now = false)
        ∨ sig = true) →
      computeTimeout nasap timers now sig = some tvZero)
    ∧ (timers = [] → nasap = 0 → sig = false →
        computeTimeout nasap timers now sig = none)
    ∧ (∀ root rest, timers = root :: rest → nasap = 0 → sig = false →
        timercmpGT root now = true →
        computeTimeout nasap timers now sig
          = some (tvClip0 (timersub root now))) := by
  refine ⟨?_, ?_, ?_⟩
  · rintro (h | ⟨root, rest, rfl, hdue⟩ | h)
    · cases timers <;> simp [computeTimeout, h]
    · simp [computeTimeout, hdue]
    · cases timers <;> simp [computeTimeout, h]
  · rintro rfl rfl rfl
    simp [computeTimeout]
  · rintro root rest rfl rfl rfl hgt
    have hw : root.wf := ht root (by simp)
    simp [computeTimeout, hgt, timersub_eq_clip hw hnow hgt]

/-- C6 witness: the third branch at a concrete state — no asaps, no
signal, one timer half a second away. -/
theorem claim_C6_witness :
    Timeval.wf ⟨1, 700000⟩
    ∧ timercmpGT ⟨2, 500000⟩ ⟨1, 700000⟩ = true
    ∧ computeTimeout 0 [⟨2, 500000⟩] ⟨1, 700000⟩ false
        = some (tvClip0 (timersub ⟨2, 500000⟩ ⟨1, 700000⟩)) :=
  ⟨by constructor <;> decide, by decide,
   (claim_C6 0 [⟨2, 500000⟩] ⟨1, 700000⟩ false
       (by constructor <;> decide)
       (by intro t hti; simp at hti; subst hti; constructor <;> decide)).2.2
     ⟨2, 500000⟩ [] rfl rfl rfl (by decide)⟩

/-- C8: in every driver state reachable by any interleaving of `block`,
`unblock` and `pop_unblocked` from a legal initial state, the unblocked
FIFO contains each rendezvous at most once (`unblock` enqueues only when
the next-pointer holds the not-in-queue sentinel). -/
theorem claim_C8 (s0 s : QState) (h0 : QInit s0) (h : QReachable s0 s) :
    s.queue.Nodup :=
  (QInv_reachable h0 h).1

/-- C8 witness: block rendezvous 0, unblock it (enqueued once), unblock it
again (no-op); the resulting FIFO `[0]` has no duplicate. -/
theorem claim_C8_witness : QInit qs0 ∧ qs3.queue.Nodup ∧ qs3.queue = [0] := by
  have hreach : QReachable qs0 qs3 :=
    Relation.ReflTransGen.tail
      (Relation.ReflTransGen.tail
        (Relation.ReflTransGen.tail Relation.ReflTransGen.refl
          (QStep.block qs0 0 rfl))
        (QStep.unblock qs1 0))
      (QStep.unblock qs2 0)
  exact ⟨⟨rfl, fun _ => rfl⟩, claim_C8 qs0 qs3 ⟨rfl, fun _ => rfl⟩ hreach,
         by decide⟩

theorem Ev.rank_le_four (x : Ev) : x.rank ≤ 4 := by
  cases x <;> simp [Ev.rank]

theorem Ev.rank_of_isRun {x : Ev} (h : x.isRun = true) : x.rank = 4 := by
  cases x <;> simp_all [Ev.isRun, Ev.rank]

theorem drainUnblocked_isRun (eff : Nat → List Nat) :
    ∀ (fuel : Nat) (q : List Nat), ∀ x ∈ (drainUnblocked eff fuel q).1,
      x.isRun = true := by
  intro fuel
  induction fuel with
  | zero => intro q x hx; simp [drainUnblocked] at hx
  | succ n ih =>
    intro q x hx
    cases q with
    | nil => simp [drainUnblocked] at hx
    | cons r q2 =>
      simp only [drainUnblocked, List.mem_cons] at hx
      rcases hx with rfl | hx
      · rfl
      · exact ih _ x hx

theorem sorted_le_of_const {m : List Nat} {c : Nat} (h : ∀ x ∈ m, x = c) :
    List.Sorted (· ≤ ·) m := by
  induction m with
  | nil => simp
  | cons a t ih =>
    rw [List.sorted_cons]
    refine ⟨fun b hb => ?_, ih fun x hx => h x (List.mem_cons_of_mem _ hx)⟩
    rw [h a (List.mem_cons_self _ _), h b (List.mem_cons_of_mem _ hb)]

theorem sorted_rank_of_const {u : List Ev} {c : Nat}
    (h : ∀ x ∈ u, x.rank = c) : List.Sorted (· ≤ ·) (u.map Ev.rank) := by
  apply sorted_le_of_const (c := c)
  intro y hy
  rcases List.mem_map.mp hy with ⟨x, hx, rfl⟩
  exact h x hx

theorem sorted_rank_append {u v : List Ev}
    (hu : List.Sorted (· ≤ ·) (u.map Ev.rank))
    (hv : List.Sorted (· ≤ ·) (v.map Ev.rank))
    (h : ∀ x ∈ u, ∀ y ∈ v, x.rank ≤ y.rank) :
    List.Sorted (· ≤ ·) ((u ++ v).map Ev.rank) := by
  rw [List.map_append]
  refine List.pairwise_append.mpr ⟨hu, hv, ?_⟩
  intro x hx y hy
  rcases List.mem_map.mp hx with ⟨x0, hx0, rfl⟩
  rcases List.mem_map.mp hy with ⟨y0, hy0, rfl⟩
  exact h x0 hx0 y0 hy0

/-- Phase-ranked segments concatenate into a rank-sorted trace. -/
theorem sorted_rank_phases {a b c d e : List Ev}
    (Ha : ∀ x ∈ a, x.rank = 0) (Hb : ∀ x ∈ b, x.rank = 1)
    (Hc : ∀ x ∈ c, x.rank = 2) (Hd : ∀ x ∈ d, x.rank = 3)
    (He : ∀ x ∈ e, x.rank = 4) :
    List.Sorted (· ≤ ·) ((a ++ b ++ c ++ d ++ e).map Ev.rank) := by
  have bd1 : ∀ x ∈ a, ∀ y ∈ b, x.rank ≤ y.rank := fun x hx y hy => by
    rw [Ha x hx, Hb y hy]; omega
  have bd2 : ∀ x ∈ a ++ b, ∀ y ∈ c, x.rank ≤ y.rank := fun x hx y hy => by
    rcases List.mem_append.mp hx with hx | hx
    · rw [Ha x hx, Hc y hy]; omega
    · rw [Hb x hx, Hc y hy]; omega
  have bd3 : ∀ x ∈ a ++ b ++ c, ∀ y ∈ d, x.rank ≤ y.rank := fun x hx y hy => by
    rcases List.mem_append.mp hx with hx | hx
    · rcases List.mem_append.mp hx with hx | hx
      · rw [Ha x hx, Hd y hy]; omega
      · rw [Hb x hx, Hd y hy]; omega
    · rw [Hc x hx, Hd y hy]; omega
  have bd4 : ∀ x ∈ a ++ b ++ c ++ d, ∀ y ∈ e, x.rank ≤ y.rank :=
    fun x _ y hy => by rw [He y hy]; exact Ev.rank_le_four x
  exact sorted_rank_append
    (sorted_rank_append
      (sorted_rank_append
        (sorted_rank_append (sorted_rank_of_const Ha) (sorted_rank_of_const Hb)
          bd1)
        (sorted_rank_of_const Hc) bd2)
      (sorted_rank_of_const Hd) bd3)
    (sorted_rank_of_const He) bd4

theorem asapTriggerOrder_eq_reverse (l : List Nat) :
    asapTriggerOrder l = l.reverse := by
  induction l with
  | nil => rfl
  | cons a m ih => simp [asapTriggerOrder, ih]

/-- C2 counterexample: with a signal (3) pending and a rendezvous (7)
sitting in the unblocked FIFO, `once`'s signal phase drains the FIFO
before the asap phase: the trace is `[sig 3, run 7, asap 0]`, whose phase
ranks `[0, 4, 1]` are not nondecreasing — a parked task resumed before
the asap phase, contradicting "only after all four phases do parked tasks
resume". -/
theorem claim_C2_counterexample :
    (once 4 cx2).1 = [Ev.sig 3, Ev.run 7, Ev.asap 0]
    ∧ ¬ List.Sorted (· ≤ ·) (((once 4 cx2).1).map Ev.rank) := by
  constructor
  · decide
  · decide

/-- C2 (amended): within one `once` turn, the non-resumption actions
always occur in phase order — signals, then asaps, then fds, then timers;
and when no signal is pending, all parked-task resumptions come after all
four trigger phases (the whole trace is rank-sorted).  When a signal is
pending the signal phase runs its own unblocked-rendezvous drain, so
parked tasks may resume between the signal triggers and the asap phase. -/
theorem claim_C2 (fuel : Nat) (s : OnceState) :
    List.Sorted (· ≤ ·)
      ((((once fuel s).1).filter (fun e => !e.isRun)).map Ev.rank)
    ∧ (s.sigAnyActive = false →
        List.Sorted (· ≤ ·) (((once fuel s).1).map Ev.rank)) := by
  constructor
  · by_cases hsig : s.sigAnyActive
    · simp only [once, hsig, if_true, List.filter_append]
      apply sorted_rank_phases
      · intro x hx
        rcases List.mem_append.mp hx with hx | hx
        · rcases (List.mem_filter.mp hx) with ⟨hx, _⟩
          rcases List.mem_map.mp hx with ⟨n, _, rfl⟩; rfl
        · rcases (List.mem_filter.mp hx) with ⟨hx, hnr⟩
          have := drainUnblocked_isRun s.runEff fuel _ x hx
          rw [this] at hnr
          simp at hnr
      · intro x hx
        rcases (List.mem_filter.mp hx) with ⟨hx, _⟩
        rcases List.mem_map.mp hx with ⟨n, _, rfl⟩; rfl
      · intro x hx
        rcases (List.mem_filter.mp hx) with ⟨hx, _⟩
        split at hx
        · rcases List.mem_map.mp hx with ⟨p, _, rfl⟩; rfl
        · simp at hx
      · intro x hx
        rcases (List.mem_filter.mp hx) with ⟨hx, _⟩
        rcases List.mem_map.mp hx with ⟨t, _, rfl⟩; rfl
      · intro x hx
        rcases (List.mem_filter.mp hx) with ⟨hx, hnr⟩
        have := drainUnblocked_isRun s.runEff fuel _ x hx
        rw [this] at hnr
        simp at hnr
    · simp only [once, hsig, if_false, List.filter_append,
        Bool.false_eq_true]
      apply sorted_rank_phases (a := (([] : List Ev).filter _))
      · intro x hx; simp at hx
      · intro x hx
        rcases (List.mem_filter.mp hx) with ⟨hx, _⟩
        rcases List.mem_map.mp hx with ⟨n, _, rfl⟩; rfl
      · intro x hx
        rcases (List.mem_filter.mp hx) with ⟨hx, _⟩
        split at hx
        · rcases List.mem_map.mp hx with ⟨p, _, rfl⟩; rfl
        · simp at hx
      · intro x hx
        rcases (List.mem_filter.mp hx) with ⟨hx, _⟩
        rcases List.mem_map.mp hx with ⟨t, _, rfl⟩; rfl
      · intro x hx
        rcases (List.mem_filter.mp hx) with ⟨hx, hnr⟩
        have := drainUnblocked_isRun s.runEff fuel _ x hx
        rw [this] at hnr
        simp at hnr
  · intro h
    simp only [once, h, if_false, Bool.false_eq_true]
    apply sorted_rank_phases (a := ([] : List Ev))
    · intro x hx; simp at hx
    · intro x hx
      rcases List.mem_map.mp hx with ⟨n, _, rfl⟩; rfl
    · intro x hx
      split at hx
      · rcases List.mem_map.mp hx with ⟨p, _, rfl⟩; rfl
      · simp at hx
    · intro x hx
      rcases List.mem_map.mp hx with ⟨t, _, rfl⟩; rfl
    · intro x hx
      exact Ev.rank_of_isRun (drainUnblocked_isRun s.runEff fuel _ x hx)

/-- C2 witness: a quiet turn (no signal pending) with an asap event, a
ready descriptor, a due timer and an unblocked rendezvous produces a
fully rank-sorted trace. -/
theorem claim_C2_witness :
    cw2.sigAnyActive = false
    ∧ List.Sorted (· ≤ ·) (((once 3 cw2).1).map Ev.rank) :=
  ⟨rfl, (claim_C2 3 cw2).2 rfl⟩

theorem filter_rank_nil {u : List Ev} {c : Nat} (h : ∀ x ∈ u, x.rank ≠ c) :
    u.filter (fun x => x.rank == c) = [] := by
  rw [List.filter_eq_nil_iff]
  intro x hx
  simpa using h x hx

theorem filter_rank_self {u : List Ev} {c : Nat} (h : ∀ x ∈ u, x.rank = c) :
    u.filter (fun x => x.rank == c) = u := by
  rw [List.filter_eq_self]
  intro x hx
  simpa using h x hx

theorem count_zero_of_rank {u : List Ev} {y : Ev}
    (h : ∀ x ∈ u, x.rank ≠ y.rank) : u.count y = 0 :=
  List.count_eq_zero.mpr fun hm => h y hm rfl

theorem count_map_asap (m : List Nat) (e : Nat) :
    (m.map Ev.asap).count (Ev.asap e) = m.count e := by
  induction m with
  | nil => rfl
  | cons a t ih => simp [List.count_cons, ih]

/-- Every action of a turn's trace is a signal, asap, fd (only when the
poll succeeded), timer or resumption action. -/
theorem once_mem_rank {fuel : Nat} {s : OnceState} {x : Ev}
    (hx : x ∈ (once fuel s).1) :
    x.rank = 0 ∨ x.rank = 1 ∨ (x.rank = 2 ∧ 0 ≤ s.selectResult)
      ∨ x.rank = 3 ∨ x.rank = 4 := by
  by_cases hsel : (0 : Int) ≤ s.selectResult <;>
    by_cases hsig : s.sigAnyActive <;>
      simp only [once, hsel, hsig, if_true, if_false, Bool.false_eq_true,
        List.append_assoc, List.nil_append, List.mem_append] at hx <;>
      casesm* _ ∨ _ <;>
      (rename_i hmem
       first
        | (rcases List.mem_map.mp hmem with ⟨n, _, rfl⟩
           simp [Ev.rank, hsel])
        | (have h4 := Ev.rank_of_isRun (drainUnblocked_isRun _ _ _ _ hmem)
           simp [h4]))

/-- C5 counterexample: the readiness poll returned -1 with
`errno = EBADF` (not `EINTR`), yet nothing fatal is surfaced and the turn
does not end: the trace is `[timer 5]` — the timer phase (a later phase
of the same turn) still runs.  The same state shows the EINTR half false
too, since `errno` is never examined. -/
theorem claim_C5_counterexample :
    cx5.selectResult = -1 ∧ cx5.errnoVal ≠ EINTR
    ∧ (once 1 cx5).1 ≠ []
    ∧ (once 1 cx5).1 = [Ev.timer 5] := by
  refine ⟨rfl, by decide, by decide, by decide⟩

/-- C5 (amended): when the readiness poll returns a negative value,
`once` merely skips the fd drain — the turn behaves exactly as if no
descriptor were ready: no fd event fires, every other phase (signals,
asaps, timers, rendezvous drain) still runs, nothing is surfaced to the
caller, and the `errno` value (EINTR or not) is never examined. -/
theorem claim_C5 (fuel : Nat) (s : OnceState) (x : Int)
    (h : s.selectResult < 0) :
    (once fuel s).1 = (once fuel { s with fdsReady := [] }).1
    ∧ ((once fuel s).1).filter (fun e => e.rank == 2) = []
    ∧ (once fuel { s with errnoVal := x }).1 = (once fuel s).1 := by
  have hns : ¬ (0 : Int) ≤ s.selectResult := not_le.mpr h
  refine ⟨?_, ?_, rfl⟩
  · simp [once, hns]
  · apply filter_rank_nil
    intro y hy
    rcases once_mem_rank hy with h0 | h1 | ⟨_, hsel⟩ | h3 | h4 <;> omega

/-- C5 witness: the amended theorem at the failed-poll state `cx5`. -/
theorem claim_C5_witness :
    cx5.selectResult < 0
    ∧ ((once 1 cx5).1).filter (fun e => e.rank == 2) = [] :=
  ⟨by decide, (claim_C5 1 cx5 0 (by decide)).2.1⟩

/-- C7: the asap phase of a turn triggers exactly the events of the asap
array, in LIFO order (the reverse of the array, most recently added
first), and leaves the array empty; and after `at_asap(e)` on a state not
already holding `e`, a single `once` call fires `e` exactly once. -/
theorem claim_C7 (fuel : Nat) (s : OnceState) (e : Nat) :
    ((once fuel s).1).filter (fun x => x.rank == 1)
        = (s.asap.reverse).map Ev.asap
    ∧ asapTriggerOrder s.asap = s.asap.reverse
    ∧ (once fuel s).2.asap = []
    ∧ (e ∉ s.asap →
        ((once fuel (at_asap s e)).1).count (Ev.asap e) = 1) := by
  refine ⟨?_, asapTriggerOrder_eq_reverse s.asap, rfl, ?_⟩
  · by_cases hsig : s.sigAnyActive <;>
      simp only [once, hsig, if_true, if_false, Bool.false_eq_true,
        List.filter_append, List.nil_append]
    · rw [filter_rank_nil (fun x hx => by
          rcases List.mem_map.mp hx with ⟨n, _, rfl⟩; simp [Ev.rank]),
        filter_rank_nil (fun x hx => by
          rw [Ev.rank_of_isRun (drainUnblocked_isRun _ _ _ _ hx)]; omega),
        filter_rank_self (fun x hx => by
          rcases List.mem_map.mp hx with ⟨n, _, rfl⟩; rfl),
        filter_rank_nil (fun x hx => by
          split at hx
          · rcases List.mem_map.mp hx with ⟨p, _, rfl⟩; simp [Ev.rank]
          · simp at hx),
        filter_rank_nil (fun x hx => by
          rcases List.mem_map.mp hx with ⟨t, _, rfl⟩; simp [Ev.rank]),
        filter_rank_nil (fun x hx => by
          rw [Ev.rank_of_isRun (drainUnblocked_isRun _ _ _ _ hx)]; omega)]
      simp [asapTriggerOrder_eq_reverse]
    · rw [filter_rank_self (fun x hx => by
          rcases List.mem_map.mp hx with ⟨n, _, rfl⟩; rfl),
        filter_rank_nil (fun x hx => by
          split at hx
          · rcases List.mem_map.mp hx with ⟨p, _, rfl⟩; simp [Ev.rank]
          · simp at hx),
        filter_rank_nil (fun x hx => by
          rcases List.mem_map.mp hx with ⟨t, _, rfl⟩; simp [Ev.rank]),
        filter_rank_nil (fun x hx => by
          rw [Ev.rank_of_isRun (drainUnblocked_isRun _ _ _ _ hx)]; omega)]
      simp [asapTriggerOrder_eq_reverse]
  · intro he
    have hrk : (Ev.asap e).rank = 1 := rfl
    by_cases hsig : s.sigAnyActive <;>
      simp only [once, at_asap, hsig, if_true, if_false, Bool.false_eq_true,
        List.count_append, List.nil_append]
    · rw [count_zero_of_rank (fun x hx => by
          rcases List.mem_map.mp hx with ⟨n, _, rfl⟩; simp [Ev.rank]),
        count_zero_of_rank (fun x hx => by
          rw [Ev.rank_of_isRun (drainUnblocked_isRun _ _ _ _ hx)]
          simp [Ev.rank]),
        count_map_asap,
        count_zero_of_rank (fun x hx => by
          split at hx
          · rcases List.mem_map.mp hx with ⟨p, _, rfl⟩; simp [Ev.rank]
          · simp at hx),
        count_zero_of_rank (fun x hx => by
          rcases List.mem_map.mp hx with ⟨t, _, rfl⟩; simp [Ev.rank]),
        count_zero_of_rank (fun x hx => by
          rw [Ev.rank_of_isRun (drainUnblocked_isRun _ _ _ _ hx)]
          simp [Ev.rank])]
      rw [asapTriggerOrder_eq_reverse]
      simp [List.count_cons, List.count_eq_zero.mpr he,
        List.count_eq_zero.mpr (fun hm => he (List.mem_reverse.mp hm))]
    · rw [count_map_asap,
        count_zero_of_rank (fun x hx => by
          split at hx
          · rcases List.mem_map.mp hx with ⟨p, _, rfl⟩; simp [Ev.rank]
          · simp at hx),
        count_zero_of_rank (fun x hx => by
          rcases List.mem_map.mp hx with ⟨t, _, rfl⟩; simp [Ev.rank]),
        count_zero_of_rank (fun x hx => by
          rw [Ev.rank_of_isRun (drainUnblocked_isRun _ _ _ _ hx)]
          simp [Ev.rank])]
      rw [asapTriggerOrder_eq_reverse]
      simp [List.count_cons, List.count_eq_zero.mpr he,
        List.count_eq_zero.mpr (fun hm => he (List.mem_reverse.mp hm))]

/-- C7 witness: the count conjunct at the concrete quiet state `cw7`
extended with the fresh asap event 2. -/
theorem claim_C7_witness :
    (2 ∉ cw7.asap)
    ∧ ((once 2 (at_asap cw7 2)).1).count (Ev.asap 2) = 1 :=
  ⟨by decide, (claim_C7 2 cw7 2).2.2.2 (by decide)⟩

/-- C9: the three validity observers of the fd wrapper agree (`valid`,
the boolean conversion, and `error() == 0`); a default-constructed fd and
`fd(-EBADF)` are invalid with `error() = -EBADF`; `fd(f)` for any other
negative `f` is invalid with `error() = f`. -/
theorem claim_C9 (x : FdW) (f : Int) (hf : f < 0) (hfe : f ≠ -EBADF) :
    (x.valid = x.toBool ∧ (x.valid = true ↔ x.error = 0))
    ∧ (fdDefault.valid = false ∧ fdDefault.error = -EBADF)
    ∧ ((fdMk (-EBADF)).valid = false ∧ (fdMk (-EBADF)).error = -EBADF)
    ∧ ((fdMk f).valid = false ∧ (fdMk f).error = f) := by
  refine ⟨⟨rfl, ?_⟩, ⟨rfl, rfl⟩, ⟨by decide, by decide⟩, ?_⟩
  · cases hx : x.p with
    | none => simp [FdW.valid, FdW.error, hx, EBADF]
    | some v =>
      simp only [FdW.valid, FdW.error, hx]
      constructor
      · intro hv
        simp at hv
        simp [hv]
      · intro hv
        by_cases h0 : (0 : Int) ≤ v
        · simp [h0]
        · simp [h0] at hv
          omega
  · have : ¬ (f = -EBADF) := hfe
    constructor
    · simp [fdMk, FdW.valid, this]
      omega
    · simp [fdMk, FdW.error, this]
      omega

/-- C9 witness: the theorem at `x = fd(3)` and `f = -2`. -/
theorem claim_C9_witness :
    ((-2 : Int) < 0 ∧ (-2 : Int) ≠ -EBADF)
    ∧ ((fdMk (-2)).valid = false ∧ (fdMk (-2)).error = -2) :=
  ⟨⟨by decide, by decide⟩,
   (claim_C9 (fdMk 3) (-2) (by decide) (by decide)).2.2.2⟩

/-- C10: `at_fd(fd, write, e)` always stores `e` into the slot
`fd*2+write`; if `e` is empty it clears `fd`'s bit in the corresponding
select set and leaves `_nfds` alone, and only if `e` is non-empty does it
set the bit and raise `_nfds` to at least `fd+1`. -/
theorem claim_C10 (d : FdDriverSt) (fd : Nat) (w : Bool) (e : Event0) :
    (at_fd d fd w e).fdTable (fd * 2 + (if w then 1 else 0)) = e
    ∧ (e.armed = false →
        selSet (at_fd d fd w e) w fd = false
        ∧ (at_fd d fd w e).nfds = d.nfds)
    ∧ (e.armed = true →
        selSet (at_fd d fd w e) w fd = true
        ∧ fd + 1 ≤ (at_fd d fd w e).nfds) := by
  obtain ⟨armed⟩ := e
  unfold at_fd selSet expandFds
  cases w <;> cases armed <;> simp <;> split_ifs <;>
    (try simp_all) <;> omega

/-- C10 witness: arming a non-empty event for reading on descriptor 3. -/
theorem claim_C10_witness :
    (Event0.mk true).armed = true
    ∧ (selSet (at_fd wd0 3 false ⟨true⟩) false 3 = true
       ∧ 3 + 1 ≤ (at_fd wd0 3 false ⟨true⟩).nfds) :=
  ⟨rfl, (claim_C10 wd0 3 false ⟨true⟩).2.2 rfl⟩

end Tamer
